import Mathlib

/-!
# Verification of `parse_multiple_targets` (src/utils/target/multi.rs)

A shallow embedding of the target-expression parser of this repository.
The parser turns one input string into an ordered list of target strings,
trying three grammars in order: comma-separated list, IPv4 last-octet
shorthand range (regex `^(\d+)\.(\d+)\.(\d+)\.(\d+)-(\d+):?(\d+)?$`),
and CIDR notation with an optional bracketed port suffix.

Strings are processed as their underlying `List Char`.  Rust's
`Result<Vec<String>, Error>` becomes `PResult`; an extra constructor
`panicked` records the abnormal termination produced by
`.parse::<u8>().unwrap()` when a captured numeric group does not fit
in `u8`.

The external CIDR capability (`cidr_utils::IpCidr`, not part of this
repository's sources) is a parameter of the parser; a concrete IPv4
model of it, written from the spec, is provided for evaluation.
-/

namespace Legba

/-- Longest all-digit prefix of a char list, together with the rest.
Embeds the behaviour of a greedy `(\d+)` capture. -/
def takeDigits : List Char → List Char × List Char
  | [] => ([], [])
  | c :: cs =>
    if c.isDigit then
      let p := takeDigits cs
      (c :: p.1, p.2)
    else ([], c :: cs)

/-- Read one nonempty digit group (a `(\d+)` capture); `none` if the next
char is not a digit. -/
def readGroup (cs : List Char) : Option (List Char × List Char) :=
  let p := takeDigits cs
  if p.1 = [] then none else some p

/-- Consume one expected literal character. -/
def expectChar (c : Char) : List Char → Option (List Char)
  | d :: rest => if d = c then some rest else none
  | [] => none

/-- The six capture groups of `IPV4_RANGE_PARSER`
(`^(\d+)\.(\d+)\.(\d+)\.(\d+)-(\d+):?(\d+)?$`); group 6 is optional. -/
structure RangeCaps where
  g1 : List Char
  g2 : List Char
  g3 : List Char
  g4 : List Char
  g5 : List Char
  g6 : Option (List Char)
deriving DecidableEq, Repr

/-- Match the regex tail `:?(\d+)?$` after the fifth capture group:
the remainder must be empty, a lone `:`, or `:` followed by digits only. -/
def rangeTail (g1 g2 g3 g4 g5 : List Char) : List Char → Option RangeCaps
  | [] => some ⟨g1, g2, g3, g4, g5, none⟩
  | ':' :: rest =>
    let p := takeDigits rest
    if p.2 = [] then
      if p.1 = [] then some ⟨g1, g2, g3, g4, g5, none⟩
      else some ⟨g1, g2, g3, g4, g5, some p.1⟩
    else none
  | _ => none

/-- Deterministic matcher for the anchored regex
`^(\d+)\.(\d+)\.(\d+)\.(\d+)-(\d+):?(\d+)?$` (`IPV4_RANGE_PARSER`).
Since a capture can hold only digits and every separator is a fixed
non-digit character, the greedy decomposition is the unique one, so this
function agrees with the regex engine's leftmost-greedy captures. -/
def ipv4RangeCaptures (cs : List Char) : Option RangeCaps :=
  (readGroup cs).bind fun p1 =>
  (expectChar '.' p1.2).bind fun r1 =>
  (readGroup r1).bind fun p2 =>
  (expectChar '.' p2.2).bind fun r2 =>
  (readGroup r2).bind fun p3 =>
  (expectChar '.' p3.2).bind fun r3 =>
  (readGroup r3).bind fun p4 =>
  (expectChar '-' p4.2).bind fun r4 =>
  (readGroup r4).bind fun p5 =>
  rangeTail p1.1 p2.1 p3.1 p4.1 p5.1 p5.2

/-- Rust `str::parse::<u8>` on a capture: the decimal value when the text
is a nonempty digit string whose value fits in 8 bits, `none` otherwise. -/
def parseU8 (cs : List Char) : Option Nat :=
  if cs = [] then none
  else if cs.all Char.isDigit then
    let n := cs.foldl (fun acc c => acc * 10 + (c.toNat - 48)) 0
    if n ≤ 255 then some n else none
  else none

/-- The `port_part` of the shorthand-range branch: `":" ++ port` when
group 6 was captured, empty otherwise. -/
def portPart : Option (List Char) → String
  | some p => ":" ++ String.mk p
  | none => ""

/-- Rust `format!("{}.{}.{}.{}{}", a, b, c, d, port_part)`: octet values
are re-rendered in canonical decimal. -/
def formatTarget (a b c d : Nat) (port : String) : String :=
  toString a ++ "." ++ toString b ++ "." ++ toString c ++ "." ++ toString d ++ port

/-- Rust `str::split(',')`: all pieces between commas, empty pieces
included. -/
def splitByComma : List Char → List (List Char)
  | [] => [[]]
  | c :: rest =>
    if c = ',' then [] :: splitByComma rest
    else
      match splitByComma rest with
      | [] => [[c]]
      | p :: ps => (c :: p) :: ps

/-- Rust `str::trim`: strip leading and trailing whitespace. -/
def trimChars (cs : List Char) : List Char :=
  ((cs.dropWhile Char.isWhitespace).reverse.dropWhile Char.isWhitespace).reverse

/-- Rust `str::split_once(":[")`: split at the first occurrence of the
two-character pattern `:[`, keeping neither pattern character. -/
def splitOnColonBracket : List Char → Option (List Char × List Char)
  | [] => none
  | c :: rest =>
    if c = ':' ∧ rest.head? = some '[' then some ([], rest.tail)
    else (splitOnColonBracket rest).map (fun p => (c :: p.1, p.2))

/-- Rust `str::trim_end_matches(']')`: drop every trailing `]`. -/
def trimEndRB (cs : List Char) : List Char :=
  (cs.reverse.dropWhile (fun c => c = ']')).reverse

/-- The port-suffix extraction of the CIDR branch: when the expression
contains `:[` and ends with `]`, split at the first `:[`; the suffix keeps
the brackets (`:[port]`) when the cidr part contains a colon (IPv6) and
strips them (`:port`) otherwise (IPv4).  Without such a suffix the cidr
part is the whole expression and the suffix is empty. -/
def splitPort (expression : String) : String × String :=
  match splitOnColonBracket expression.data with
  | some p =>
    if expression.data.getLast? = some ']' then
      (String.mk p.1,
        if ':' ∈ p.1 then ":[" ++ String.mk p.2
        else ":" ++ String.mk (trimEndRB p.2))
    else (expression, "")
  | none => (expression, "")

/-- The descending-range error message
(`format!("invalid ip range {}, {} is greater than {}", ...)`). -/
def descendingMsg (expression : String) (start stop : Nat) : String :=
  "invalid ip range " ++ expression ++ ", " ++ toString start ++
    " is greater than " ++ toString stop

/-- The terminal error message
(`format!("could not parse '{}' as a comma separated list of targets or as CIDR", ...)`). -/
def unrecognizedMsg (expression : String) : String :=
  "could not parse '" ++ expression ++ "' as a comma separated list of targets or as CIDR"

/-- Outcome of `parse_multiple_targets`: `Ok`, `Err`, or a panic raised
by an `unwrap()` inside the function body. -/
inductive PResult where
  | ok : List String → PResult
  | err : String → PResult
  | panicked : PResult
deriving DecidableEq, Repr

/-- Shallow embedding of `parse_multiple_targets`
(src/utils/target/multi.rs).  The external CIDR capability
(`IpCidr::from_str` plus block iteration) is passed as `cidrFromStr`:
`some` yields the block's addresses in iteration order, `none` means the
literal was rejected. -/
def parse_multiple_targets (cidrFromStr : String → Option (List String))
    (expression : String) : PResult :=
  if ',' ∈ expression.data then
    .ok (((splitByComma expression.data).map (fun s => String.mk (trimChars s))).filter
      (fun s => !s.isEmpty))
  else
    match ipv4RangeCaptures expression.data with
    | some caps =>
      match parseU8 caps.g1, parseU8 caps.g2, parseU8 caps.g3,
          parseU8 caps.g4, parseU8 caps.g5 with
      | some a, some b, some c, some start, some stop =>
        if stop < start then .err (descendingMsg expression start stop)
        else
          .ok ((List.range' start (stop + 1 - start)).map
            (fun d => formatTarget a b c d (portPart caps.g6)))
      | _, _, _, _, _ => .panicked
    | none =>
      let pp := splitPort expression
      match cidrFromStr pp.1 with
      | some ips => .ok (ips.map (fun ip => ip ++ pp.2))
      | none => .err (unrecognizedMsg expression)

/-- Decimal value of a nonempty digit string, without a width bound. -/
def digitVal? (cs : List Char) : Option Nat :=
  if cs ≠ [] ∧ cs.all Char.isDigit then
    some (cs.foldl (fun acc c => acc * 10 + (c.toNat - 48)) 0)
  else none

/-- One dotted-quad octet: a digit group with value at most 255. -/
def octet? (cs : List Char) : Option Nat :=
  (digitVal? cs).bind (fun n => if n ≤ 255 then some n else none)

/-- Split a char list at every occurrence of `sep`. -/
def splitAtChar (sep : Char) : List Char → List (List Char)
  | [] => [[]]
  | c :: rest =>
    if c = sep then [] :: splitAtChar sep rest
    else
      match splitAtChar sep rest with
      | [] => [[c]]
      | p :: ps => (c :: p) :: ps

/-- Modelled from the spec: the IPv4 case of `IpCidr::from_str`
(`cidr_utils`, not in this repository's sources): an `a.b.c.d/p`
literal.  Returns the block's base address (host bits masked off) as a
numeric value together with the prefix length. -/
def ipv4Cidr? (s : String) : Option (Nat × Nat) :=
  match splitAtChar '/' s.data with
  | [addr, pre] =>
    match splitAtChar '.' addr with
    | [x1, x2, x3, x4] =>
      match octet? x1, octet? x2, octet? x3, octet? x4, digitVal? pre with
      | some a, some b, some c, some d, some p =>
        if p ≤ 32 then
          let v := a * 2 ^ 24 + b * 2 ^ 16 + c * 2 ^ 8 + d
          some (v - v % 2 ^ (32 - p), p)
        else none
      | _, _, _, _, _ => none
    | _ => none
  | _ => none

/-- Canonical dotted-quad rendering of a 32-bit address value. -/
def ipv4Format (n : Nat) : String :=
  toString (n / 2 ^ 24 % 256) ++ "." ++ toString (n / 2 ^ 16 % 256) ++ "." ++
    toString (n / 2 ^ 8 % 256) ++ "." ++ toString (n % 256)

/-- One hexadecimal digit, lowercase. -/
def hexDigit (n : Nat) : Char :=
  if n < 10 then Char.ofNat (48 + n) else Char.ofNat (87 + n)

/-- Lowercase hex rendering of one 16-bit IPv6 group, without leading
zeros. -/
def hexGroup (n : Nat) : List Char :=
  if n < 16 then [hexDigit (n % 16)]
  else if n < 256 then [hexDigit (n / 16 % 16), hexDigit (n % 16)]
  else if n < 4096 then [hexDigit (n / 256 % 16), hexDigit (n / 16 % 16), hexDigit (n % 16)]
  else [hexDigit (n / 4096 % 16), hexDigit (n / 256 % 16), hexDigit (n / 16 % 16),
    hexDigit (n % 16)]

/-- Value of one hexadecimal digit character, either case. -/
def hexVal? (c : Char) : Option Nat :=
  if '0' ≤ c ∧ c ≤ '9' then some (c.toNat - 48)
  else if 'a' ≤ c ∧ c ≤ 'f' then some (c.toNat - 87)
  else if 'A' ≤ c ∧ c ≤ 'F' then some (c.toNat - 55)
  else none

/-- Value of one textual IPv6 group: one to four hex digits. -/
def hexGroupVal? (cs : List Char) : Option Nat :=
  if cs ≠ [] ∧ cs.length ≤ 4 then
    cs.foldl (fun acc c => acc.bind (fun a => (hexVal? c).map (fun v => a * 16 + v))) (some 0)
  else none

/-- Values of a list of textual IPv6 groups; fails if any group does. -/
def hexGroupsVal? : List (List Char) → Option (List Nat)
  | [] => some []
  | g :: gs => (hexGroupVal? g).bind fun v => (hexGroupsVal? gs).map fun vs => v :: vs

/-- Split at the first occurrence of `::`, keeping neither colon. -/
def splitOnDoubleColon : List Char → Option (List Char × List Char)
  | [] => none
  | c :: rest =>
    if c = ':' ∧ rest.head? = some ':' then some ([], rest.tail)
    else (splitOnDoubleColon rest).map (fun p => (c :: p.1, p.2))

/-- The 128-bit value of a list of eight 16-bit groups. -/
def ipv6Value (gs : List Nat) : Nat :=
  gs.foldl (fun acc g => acc * 65536 + g) 0

/-- Modelled from the spec: the IPv6 half of the address-family
auto-detection of the absent CIDR capability (`cidr_utils::IpCidr`):
a textual IPv6 address, either eight colon-separated hex groups or a
form compressed with one `::` standing for the elided zero groups
(embedded dotted-quad forms are not modelled). -/
def ipv6Addr? (cs : List Char) : Option Nat :=
  match splitOnDoubleColon cs with
  | some lr =>
    if splitOnDoubleColon lr.2 = none then
      match (if lr.1 = [] then some [] else hexGroupsVal? (splitAtChar ':' lr.1)),
          (if lr.2 = [] then some [] else hexGroupsVal? (splitAtChar ':' lr.2)) with
      | some lg, some rg =>
        if lg.length + rg.length ≤ 7 then
          some (ipv6Value (lg ++ List.replicate (8 - lg.length - rg.length) 0 ++ rg))
        else none
      | _, _ => none
    else none
  | none =>
    match hexGroupsVal? (splitAtChar ':' cs) with
    | some gs => if gs.length = 8 then some (ipv6Value gs) else none
    | none => none

/-- Modelled from the spec: the IPv6 case of `IpCidr::from_str`
(not in this repository's sources): an IPv6 literal, `/`, and a prefix
length of at most 128.  Returns the block's base address (host bits
masked off) together with the prefix length. -/
def ipv6Cidr? (s : String) : Option (Nat × Nat) :=
  match splitAtChar '/' s.data with
  | [addr, pre] =>
    match ipv6Addr? addr, digitVal? pre with
    | some v, some p =>
      if p ≤ 128 then some (v - v % 2 ^ (128 - p), p) else none
    | _, _ => none
  | _ => none

/-- The eight 16-bit groups of a 128-bit address value, most significant
first. -/
def ipv6Groups (n : Nat) : List Nat :=
  [n / 2 ^ 112 % 65536, n / 2 ^ 96 % 65536, n / 2 ^ 80 % 65536, n / 2 ^ 64 % 65536,
   n / 2 ^ 48 % 65536, n / 2 ^ 32 % 65536, n / 2 ^ 16 % 65536, n % 65536]

/-- Length of the zero-group run starting at index `i`. -/
def zeroRunAt (gs : List Nat) (i : Nat) : Nat :=
  ((gs.drop i).takeWhile (fun g => g == 0)).length

/-- Leftmost longest run of zero groups, as (start, length). -/
def bestZeroRun (gs : List Nat) : Nat × Nat :=
  (List.range gs.length).foldl
    (fun best i =>
      let len := zeroRunAt gs i
      if best.2 < len then (i, len) else best)
    (0, 0)

/-- Join group renderings with `:` separators. -/
def joinColon : List (List Char) → List Char
  | [] => []
  | [g] => g
  | g :: gs => g ++ ':' :: joinColon gs

/-- Canonical textual rendering of a 128-bit address: lowercase hex
groups without leading zeros, the leftmost longest run of two or more
zero groups compressed to `::`. -/
def ipv6Format (n : Nat) : String :=
  let gs := ipv6Groups n
  let best := bestZeroRun gs
  if 2 ≤ best.2 then
    String.mk (joinColon ((gs.take best.1).map hexGroup) ++
      ':' :: ':' :: joinColon ((gs.drop (best.1 + best.2)).map hexGroup))
  else
    String.mk (joinColon (gs.map hexGroup))

/-- The parsed block of a CIDR literal, auto-detected by address family:
(address bits, base address value, prefix length); 32-bit dotted-quad
blocks and 128-bit IPv6 blocks. -/
def cidrBlock? (s : String) : Option (Nat × Nat × Nat) :=
  match ipv4Cidr? s with
  | some bp => some (32, bp.1, bp.2)
  | none =>
    match ipv6Cidr? s with
    | some bp => some (128, bp.1, bp.2)
    | none => none

/-- Render one address of a block in its family's textual form. -/
def cidrFormat (bits n : Nat) : String :=
  if bits = 32 then ipv4Format n else ipv6Format n

/-- Modelled from the spec: the external CIDR parsing/enumeration
capability (`cidr_utils::IpCidr`, not in this repository's sources):
a CIDR literal, IPv4 or IPv6 auto-detected by address family; on
success the finite sequence of all `2 ^ (address_bits - prefix_length)`
addresses the block contains, in ascending order. -/
def cidrModel (s : String) : Option (List String) :=
  (cidrBlock? s).map
    (fun t => (List.range (2 ^ (t.1 - t.2.2))).map (fun i => cidrFormat t.1 (t.2.1 + i)))

/-- A shorthand-range expression assembled from its capture texts:
`g1.g2.g3.g4-g5` followed by `tail`. -/
def rangeExpr (g1 g2 g3 g4 g5 tail : List Char) : List Char :=
  g1 ++ '.' :: (g2 ++ '.' :: (g3 ++ '.' :: (g4 ++ '-' :: (g5 ++ tail))))

end Legba

namespace Legba

/-! ## Helper lemmas -/

theorem string_append_assoc (a b c : String) : a ++ b ++ c = a ++ (b ++ c) := by
  cases a; cases b; cases c
  exact congrArg String.mk (List.append_assoc ..)

theorem string_append_empty (a : String) : a ++ "" = a := by
  cases a
  exact congrArg String.mk (List.append_nil _)

theorem takeDigits_append (ds rest : List Char)
    (hds : ∀ c ∈ ds, c.isDigit = true)
    (hrest : ∀ c, rest.head? = some c → c.isDigit = false) :
    takeDigits (ds ++ rest) = (ds, rest) := by
  induction ds with
  | nil =>
    simp only [List.nil_append]
    cases rest with
    | nil => rfl
    | cons c t =>
      have hc := hrest c rfl
      simp [takeDigits, hc]
  | cons d ds ih =>
    have hd := hds d (List.mem_cons_self ..)
    have hds' : takeDigits (ds ++ rest) = (ds, rest) :=
      ih (fun c hc => hds c (List.mem_cons_of_mem _ hc))
    simp [takeDigits, hd, hds']

theorem readGroup_append (ds rest : List Char) (hne : ds ≠ [])
    (hds : ∀ c ∈ ds, c.isDigit = true)
    (hrest : ∀ c, rest.head? = some c → c.isDigit = false) :
    readGroup (ds ++ rest) = some (ds, rest) := by
  simp [readGroup, takeDigits_append ds rest hds hrest, hne]

theorem head_cons_not_digit {c0 : Char} (h : c0.isDigit = false) (R : List Char) :
    ∀ c, (c0 :: R).head? = some c → c.isDigit = false := by
  intro c hc
  simp only [List.head?, Option.some.injEq] at hc
  rw [← hc]
  exact h

/-- Evaluation of the shorthand-range branch in the ascending case. -/
theorem parse_range_ok_eval (cap : String → Option (List String)) (e : String)
    (caps : RangeCaps) (a b c start stop : Nat)
    (h0 : ',' ∉ e.data)
    (h1 : ipv4RangeCaptures e.data = some caps)
    (ha : parseU8 caps.g1 = some a) (hb : parseU8 caps.g2 = some b)
    (hc : parseU8 caps.g3 = some c) (hs : parseU8 caps.g4 = some start)
    (ht : parseU8 caps.g5 = some stop) (hle : start ≤ stop) :
    parse_multiple_targets cap e =
      .ok ((List.range' start (stop + 1 - start)).map
        (fun d => formatTarget a b c d (portPart caps.g6))) := by
  simp only [parse_multiple_targets, if_neg h0, h1, ha, hb, hc, hs, ht,
    if_neg (Nat.not_lt.mpr hle)]

/-- Evaluation of the shorthand-range branch in the descending case. -/
theorem parse_range_err_eval (cap : String → Option (List String)) (e : String)
    (caps : RangeCaps) (a b c start stop : Nat)
    (h0 : ',' ∉ e.data)
    (h1 : ipv4RangeCaptures e.data = some caps)
    (ha : parseU8 caps.g1 = some a) (hb : parseU8 caps.g2 = some b)
    (hc : parseU8 caps.g3 = some c) (hs : parseU8 caps.g4 = some start)
    (ht : parseU8 caps.g5 = some stop) (hlt : stop < start) :
    parse_multiple_targets cap e = .err (descendingMsg e start stop) := by
  simp only [parse_multiple_targets, if_neg h0, h1, ha, hb, hc, hs, ht, if_pos hlt]

end Legba

namespace Legba

/-! ## Claim theorems -/

/-- C1: for every input containing at least one comma, the parser returns
`Ok` with the pieces obtained by splitting on `,`, each trimmed, empty
pieces dropped, the rest kept verbatim in input order; this branch never
errors, and `","` yields `Ok []`. -/
theorem comma_mode_correct (cap : String → Option (List String)) (e : String)
    (h : ',' ∈ e.data) :
    (∃ ts, parse_multiple_targets cap e = .ok ts ∧
      ts = ((splitByComma e.data).map (fun s => String.mk (trimChars s))).filter
        (fun s => !s.isEmpty) ∧
      ts.Sublist ((splitByComma e.data).map (fun s => String.mk (trimChars s))) ∧
      (∀ s ∈ ts, s.isEmpty = false)) ∧
    parse_multiple_targets cap "," = .ok [] := by
  constructor
  · refine ⟨_, ?_, rfl, List.filter_sublist _, ?_⟩
    · simp only [parse_multiple_targets, if_pos h]
    · intro s hs
      have := (List.mem_filter.mp hs).2
      simpa using this
  · have h2 : ',' ∈ (("," : String)).data := by decide
    simp only [parse_multiple_targets, if_pos h2]
    rfl

/-- C1 witness: the comma-mode theorem applied to the repository's own
test input. -/
theorem comma_mode_correct_witness :
    ',' ∈ ("127.0.0.1:22, www.google.com, cnn.com,, 8.8.8.8:4444" : String).data ∧
    ((∃ ts, parse_multiple_targets cidrModel
        "127.0.0.1:22, www.google.com, cnn.com,, 8.8.8.8:4444" = .ok ts ∧
      ts = ((splitByComma ("127.0.0.1:22, www.google.com, cnn.com,, 8.8.8.8:4444" : String).data).map
          (fun s => String.mk (trimChars s))).filter (fun s => !s.isEmpty) ∧
      ts.Sublist ((splitByComma ("127.0.0.1:22, www.google.com, cnn.com,, 8.8.8.8:4444" : String).data).map
          (fun s => String.mk (trimChars s))) ∧
      (∀ s ∈ ts, s.isEmpty = false)) ∧
    parse_multiple_targets cidrModel "," = .ok []) :=
  ⟨by decide, comma_mode_correct cidrModel
    "127.0.0.1:22, www.google.com, cnn.com,, 8.8.8.8:4444" (by decide)⟩

/-- C2: for every comma-free input matched by the shorthand-range pattern
whose five numeric groups fit in `u8` with `start ≤ stop`, the parser
returns `Ok` with exactly `a.b.c.d` for each `d` from `start` to `stop`
in ascending order, each suffixed with `:port` when a port group was
captured, and the output length is `stop - start + 1`. -/
theorem range_mode_ascending (cap : String → Option (List String)) (e : String)
    (caps : RangeCaps) (a b c start stop : Nat)
    (h0 : ',' ∉ e.data)
    (h1 : ipv4RangeCaptures e.data = some caps)
    (ha : parseU8 caps.g1 = some a) (hb : parseU8 caps.g2 = some b)
    (hc : parseU8 caps.g3 = some c) (hs : parseU8 caps.g4 = some start)
    (ht : parseU8 caps.g5 = some stop) (hle : start ≤ stop) :
    parse_multiple_targets cap e =
      .ok ((List.range' start (stop + 1 - start)).map
        (fun d => formatTarget a b c d (portPart caps.g6))) ∧
    ((List.range' start (stop + 1 - start)).map
        (fun d => formatTarget a b c d (portPart caps.g6))).length = stop - start + 1 ∧
    (∀ p, caps.g6 = some p → portPart caps.g6 = ":" ++ String.mk p) ∧
    (caps.g6 = none → portPart caps.g6 = "") := by
  refine ⟨parse_range_ok_eval cap e caps a b c start stop h0 h1 ha hb hc hs ht hle,
    ?_, ?_, ?_⟩
  · simp only [List.length_map, List.length_range']
    omega
  · intro p hp; rw [hp]; rfl
  · intro hp; rw [hp]; rfl

/-- C2 witness: the ascending-range theorem at `1.2.3.4-6:22`. -/
theorem range_mode_ascending_witness :
    parse_multiple_targets cidrModel "1.2.3.4-6:22" =
      .ok ((List.range' 4 (6 + 1 - 4)).map
        (fun d => formatTarget 1 2 3 d (portPart (some ['2', '2'])))) ∧
    ((List.range' 4 (6 + 1 - 4)).map
        (fun d => formatTarget 1 2 3 d (portPart (some ['2', '2'])))).length = 6 - 4 + 1 ∧
    (∀ p, (some ['2', '2'] : Option (List Char)) = some p →
      portPart (some ['2', '2']) = ":" ++ String.mk p) ∧
    ((some ['2', '2'] : Option (List Char)) = none → portPart (some ['2', '2']) = "") :=
  range_mode_ascending cidrModel "1.2.3.4-6:22"
    ⟨['1'], ['2'], ['3'], ['4'], ['6'], some ['2', '2']⟩ 1 2 3 4 6
    (by decide) (by decide) (by decide) (by decide) (by decide) (by decide)
    (by decide) (by decide)

/-- C3: for every comma-free input matched by the shorthand-range pattern
whose numeric groups fit in `u8`, if `stop < start` the parser returns the
descending-range error, whose message contains the original expression,
the start value and the stop value; no target list is produced. -/
theorem range_mode_descending (cap : String → Option (List String)) (e : String)
    (caps : RangeCaps) (a b c start stop : Nat)
    (h0 : ',' ∉ e.data)
    (h1 : ipv4RangeCaptures e.data = some caps)
    (ha : parseU8 caps.g1 = some a) (hb : parseU8 caps.g2 = some b)
    (hc : parseU8 caps.g3 = some c) (hs : parseU8 caps.g4 = some start)
    (ht : parseU8 caps.g5 = some stop) (hlt : stop < start) :
    ∃ msg, parse_multiple_targets cap e = .err msg ∧
      msg = descendingMsg e start stop ∧
      (∃ p q, msg = p ++ e ++ q) ∧
      (∃ p q, msg = p ++ toString start ++ q) ∧
      (∃ p q, msg = p ++ toString stop ++ q) := by
  refine ⟨descendingMsg e start stop,
    parse_range_err_eval cap e caps a b c start stop h0 h1 ha hb hc hs ht hlt,
    rfl, ⟨"invalid ip range ", ", " ++ toString start ++ " is greater than " ++ toString stop, ?_⟩,
    ⟨"invalid ip range " ++ e ++ ", ", " is greater than " ++ toString stop, ?_⟩,
    ⟨"invalid ip range " ++ e ++ ", " ++ toString start ++ " is greater than ", "", ?_⟩⟩
  · simp only [descendingMsg, string_append_assoc]
  · simp only [descendingMsg, string_append_assoc]
  · simp only [descendingMsg, string_append_assoc, string_append_empty]

/-- C3 witness: the descending-range theorem at `192.168.1.5-1`. -/
theorem range_mode_descending_witness :
    ∃ msg, parse_multiple_targets cidrModel "192.168.1.5-1" = .err msg ∧
      msg = descendingMsg "192.168.1.5-1" 5 1 ∧
      (∃ p q, msg = p ++ ("192.168.1.5-1" : String) ++ q) ∧
      (∃ p q, msg = p ++ toString 5 ++ q) ∧
      (∃ p q, msg = p ++ toString 1 ++ q) :=
  range_mode_descending cidrModel "192.168.1.5-1"
    ⟨['1', '9', '2'], ['1', '6', '8'], ['1'], ['5'], ['1'], none⟩ 192 168 1 5 1
    (by decide) (by decide) (by decide) (by decide) (by decide) (by decide)
    (by decide) (by decide)

/-- C4 (code bug): on `999.0.0.1-5` the shorthand-range pattern matches
but the first captured group does not fit in `u8`, and the narrowing
conversion `caps.get(1).unwrap().as_str().parse().unwrap()` panics
instead of producing an error result — the function aborts abnormally,
whatever the CIDR capability is. -/
theorem range_overflow_panics (cap : String → Option (List String)) :
    parse_multiple_targets cap "999.0.0.1-5" = .panicked ∧
    ipv4RangeCaptures ("999.0.0.1-5" : String).data =
      some ⟨['9', '9', '9'], ['0'], ['0'], ['1'], ['5'], none⟩ ∧
    parseU8 ['9', '9', '9'] = none :=
  ⟨rfl, by decide, by decide⟩

end Legba

namespace Legba

/-- Soundness of the first-occurrence split: a successful split
decomposes the input around a `:[` occurrence, and no earlier
occurrence exists in the left part. -/
theorem splitOnColonBracket_eq_some (l : List Char) :
    ∀ cs ps, splitOnColonBracket l = some (cs, ps) →
      l = cs ++ ':' :: '[' :: ps ∧ splitOnColonBracket cs = none := by
  induction l with
  | nil => intro cs ps h; simp [splitOnColonBracket] at h
  | cons c rest ih =>
    intro cs ps h
    rw [splitOnColonBracket] at h
    by_cases hc : c = ':' ∧ rest.head? = some '['
    · rw [if_pos hc] at h
      simp only [Option.some.injEq, Prod.mk.injEq] at h
      obtain ⟨h1, h2⟩ := h
      subst h1; subst h2
      obtain ⟨hcc, hh⟩ := hc
      subst hcc
      cases rest with
      | nil => simp at hh
      | cons x xs =>
        simp only [List.head?, Option.some.injEq] at hh
        subst hh
        exact ⟨rfl, rfl⟩
    · rw [if_neg hc] at h
      rw [Option.map_eq_some'] at h
      obtain ⟨⟨cs', ps'⟩, hsplit, hmap⟩ := h
      simp only [Prod.mk.injEq] at hmap
      obtain ⟨h1, h2⟩ := hmap
      subst h1; subst h2
      obtain ⟨hdec, hnone⟩ := ih cs' ps' hsplit
      subst hdec
      refine ⟨rfl, ?_⟩
      rw [splitOnColonBracket]
      have hcond : ¬(c = ':' ∧ cs'.head? = some '[') := by
        intro ⟨hcc, hh⟩
        apply hc
        refine ⟨hcc, ?_⟩
        cases cs' with
        | nil => simp at hh
        | cons x xs => simpa using hh
      rw [if_neg hcond, hnone]
      rfl

/-- C5: for a comma-free, non-shorthand-range input, the CIDR branch
splits at the first `:[` (when present and the input ends with `]`) into
a cidr part and a port literal; the appended suffix keeps the brackets
when the cidr part contains a colon and strips them otherwise; without
such a suffix the cidr part is the whole expression and the suffix is
empty; and the parser's result is determined by the CIDR capability on
that cidr part. -/
theorem port_suffix_extraction (cap : String → Option (List String)) (e : String)
    (h0 : ',' ∉ e.data) (h1 : ipv4RangeCaptures e.data = none) :
    (∀ cs ps, splitOnColonBracket e.data = some (cs, ps) →
        e.data.getLast? = some ']' →
      e.data = cs ++ ':' :: '[' :: ps ∧
      splitOnColonBracket cs = none ∧
      splitPort e = (String.mk cs,
        if ':' ∈ cs then ":[" ++ String.mk ps else ":" ++ String.mk (trimEndRB ps))) ∧
    ((splitOnColonBracket e.data = none ∨ e.data.getLast? ≠ some ']') →
      splitPort e = (e, "")) ∧
    (parse_multiple_targets cap e =
      match cap (splitPort e).1 with
      | some ips => .ok (ips.map (fun ip => ip ++ (splitPort e).2))
      | none => .err (unrecognizedMsg e)) := by
  refine ⟨?_, ?_, ?_⟩
  · intro cs ps hsp hlast
    obtain ⟨hdec, hnone⟩ := splitOnColonBracket_eq_some e.data cs ps hsp
    refine ⟨hdec, hnone, ?_⟩
    simp only [splitPort, hsp, if_pos hlast]
  · intro hcase
    rcases hcase with hn | hl
    · simp only [splitPort, hn]
    · cases hsp : splitOnColonBracket e.data with
      | none => simp only [splitPort, hsp]
      | some p => simp only [splitPort, hsp, if_neg hl]
  · simp only [parse_multiple_targets, if_neg h0, h1]

/-- C5 witness: the port-suffix theorem at `1:2::3/126:[443]` (a colon in
the cidr part, so the brackets are retained). -/
theorem port_suffix_extraction_witness :
    (',' ∉ ("1:2::3/126:[443]" : String).data) ∧
    ipv4RangeCaptures ("1:2::3/126:[443]" : String).data = none ∧
    ((∀ cs ps, splitOnColonBracket ("1:2::3/126:[443]" : String).data = some (cs, ps) →
        ("1:2::3/126:[443]" : String).data.getLast? = some ']' →
      ("1:2::3/126:[443]" : String).data = cs ++ ':' :: '[' :: ps ∧
      splitOnColonBracket cs = none ∧
      splitPort "1:2::3/126:[443]" = (String.mk cs,
        if ':' ∈ cs then ":[" ++ String.mk ps else ":" ++ String.mk (trimEndRB ps))) ∧
    ((splitOnColonBracket ("1:2::3/126:[443]" : String).data = none ∨
        ("1:2::3/126:[443]" : String).data.getLast? ≠ some ']') →
      splitPort "1:2::3/126:[443]" = ("1:2::3/126:[443]", "")) ∧
    (parse_multiple_targets cidrModel "1:2::3/126:[443]" =
      match cidrModel (splitPort "1:2::3/126:[443]").1 with
      | some ips => .ok (ips.map (fun ip => ip ++ (splitPort "1:2::3/126:[443]").2))
      | none => .err (unrecognizedMsg "1:2::3/126:[443]"))) :=
  ⟨by decide, by decide,
    port_suffix_extraction cidrModel "1:2::3/126:[443]" (by decide) (by decide)⟩

/-- C6: for a comma-free, non-shorthand-range input whose cidr part is
accepted by the (spec-modelled) CIDR capability — IPv4 or IPv6,
auto-detected by address family — the parser returns every address of
the block in ascending order, each with the computed port suffix
appended, and the output length is exactly
`2 ^ (address_bits - prefix_length)`. -/
theorem cidr_mode_expansion (e : String) (bits base p : Nat)
    (h0 : ',' ∉ e.data)
    (h1 : ipv4RangeCaptures e.data = none)
    (h2 : cidrBlock? (splitPort e).1 = some (bits, base, p)) :
    (bits = 32 ∨ bits = 128) ∧
    parse_multiple_targets cidrModel e =
      .ok ((List.range (2 ^ (bits - p))).map
        (fun i => cidrFormat bits (base + i) ++ (splitPort e).2)) ∧
    ((List.range (2 ^ (bits - p))).map
        (fun i => cidrFormat bits (base + i) ++ (splitPort e).2)).length = 2 ^ (bits - p) ∧
    (∀ addr : Nat, base ≤ addr → addr < base + 2 ^ (bits - p) →
      (cidrFormat bits addr ++ (splitPort e).2) ∈
        (List.range (2 ^ (bits - p))).map
          (fun i => cidrFormat bits (base + i) ++ (splitPort e).2)) := by
  refine ⟨?_, ?_, by simp, ?_⟩
  · unfold cidrBlock? at h2
    cases h4 : ipv4Cidr? (splitPort e).1 with
    | some bp =>
      rw [h4] at h2
      simp only [Option.some.injEq, Prod.mk.injEq] at h2
      exact Or.inl h2.1.symm
    | none =>
      rw [h4] at h2
      cases h6 : ipv6Cidr? (splitPort e).1 with
      | some bp =>
        rw [h6] at h2
        simp only [Option.some.injEq, Prod.mk.injEq] at h2
        exact Or.inr h2.1.symm
      | none =>
        rw [h6] at h2
        simp at h2
  · simp only [parse_multiple_targets, if_neg h0, h1, cidrModel, h2, Option.map_some',
      List.map_map]
    rfl
  · intro addr hge hlt
    rw [List.mem_map]
    refine ⟨addr - base, ?_, by rw [Nat.add_sub_cancel' hge]⟩
    rw [List.mem_range]
    omega

/-- C6 witness: the CIDR-expansion theorem at the repository's own IPv6
test input (128-bit family, base address
42540588940202191113548325530045174256 = 2001:4f8:3:ba:2e0:81ff:fe22:d1f0,
prefix length 126, brackets retained in the suffix). -/
theorem cidr_mode_expansion_witness :
    (',' ∉ ("2001:4f8:3:ba:2e0:81ff:fe22:d1f1/126:[1234]" : String).data) ∧
    ipv4RangeCaptures ("2001:4f8:3:ba:2e0:81ff:fe22:d1f1/126:[1234]" : String).data = none ∧
    cidrBlock? (splitPort "2001:4f8:3:ba:2e0:81ff:fe22:d1f1/126:[1234]").1 =
      some (128, 42540588940202191113548325530045174256, 126) ∧
    ((128 = 32 ∨ 128 = 128) ∧
    parse_multiple_targets cidrModel "2001:4f8:3:ba:2e0:81ff:fe22:d1f1/126:[1234]" =
      .ok ((List.range (2 ^ (128 - 126))).map
        (fun i => cidrFormat 128 (42540588940202191113548325530045174256 + i) ++
          (splitPort "2001:4f8:3:ba:2e0:81ff:fe22:d1f1/126:[1234]").2)) ∧
    ((List.range (2 ^ (128 - 126))).map
        (fun i => cidrFormat 128 (42540588940202191113548325530045174256 + i) ++
          (splitPort "2001:4f8:3:ba:2e0:81ff:fe22:d1f1/126:[1234]").2)).length =
      2 ^ (128 - 126) ∧
    (∀ addr : Nat, 42540588940202191113548325530045174256 ≤ addr →
        addr < 42540588940202191113548325530045174256 + 2 ^ (128 - 126) →
      (cidrFormat 128 addr ++ (splitPort "2001:4f8:3:ba:2e0:81ff:fe22:d1f1/126:[1234]").2) ∈
        (List.range (2 ^ (128 - 126))).map
          (fun i => cidrFormat 128 (42540588940202191113548325530045174256 + i) ++
            (splitPort "2001:4f8:3:ba:2e0:81ff:fe22:d1f1/126:[1234]").2))) :=
  ⟨by decide, by decide, by decide,
    cidr_mode_expansion "2001:4f8:3:ba:2e0:81ff:fe22:d1f1/126:[1234]"
      128 42540588940202191113548325530045174256 126
      (by decide) (by decide) (by decide)⟩

/-- C7: for a comma-free input that matches neither the shorthand-range
pattern nor (via its cidr part) the CIDR capability — the empty string
included — the parser returns the terminal error, whose message contains
the original expression. -/
theorem unrecognized_error (cap : String → Option (List String)) (e : String)
    (h0 : ',' ∉ e.data)
    (h1 : ipv4RangeCaptures e.data = none)
    (h2 : cap (splitPort e).1 = none) :
    ∃ msg, parse_multiple_targets cap e = .err msg ∧
      msg = unrecognizedMsg e ∧
      (∃ pre post, msg = pre ++ e ++ post) := by
  refine ⟨unrecognizedMsg e, ?_, rfl,
    ⟨"could not parse '", "' as a comma separated list of targets or as CIDR", ?_⟩⟩
  · simp only [parse_multiple_targets, if_neg h0, h1, h2]
  · simp only [unrecognizedMsg, string_append_assoc]

/-- C7 witness: the terminal-error theorem at the empty string. -/
theorem unrecognized_error_witness :
    (',' ∉ ("" : String).data) ∧
    ipv4RangeCaptures ("" : String).data = none ∧
    cidrModel (splitPort "").1 = none ∧
    (∃ msg, parse_multiple_targets cidrModel "" = .err msg ∧
      msg = unrecognizedMsg "" ∧
      (∃ pre post, msg = pre ++ ("" : String) ++ post)) :=
  ⟨by decide, by decide, by decide,
    unrecognized_error cidrModel "" (by decide) (by decide) (by decide)⟩

/-- C8: the parser is a pure function of its input: two invocations on
equal input strings under the same CIDR capability yield identical
results, with no dependence on any other state. -/
theorem parse_deterministic (cap : String → Option (List String))
    (e1 e2 : String) (h : e1 = e2) :
    parse_multiple_targets cap e1 = parse_multiple_targets cap e2 :=
  congrArg (parse_multiple_targets cap) h

/-- C8 witness: determinism at a concrete input. -/
theorem parse_deterministic_witness :
    ("192.168.1.1-5" : String) = "192.168.1.1-5" ∧
    parse_multiple_targets cidrModel "192.168.1.1-5" =
      parse_multiple_targets cidrModel "192.168.1.1-5" :=
  ⟨rfl, parse_deterministic cidrModel "192.168.1.1-5" "192.168.1.1-5" rfl⟩

end Legba

namespace Legba

/-- A shorthand-range expression with all-digit groups and a trailing
lone colon contains no comma. -/
theorem comma_not_mem_range_colon (g1 g2 g3 g4 g5 : List Char)
    (hd1 : ∀ c ∈ g1, c.isDigit = true) (hd2 : ∀ c ∈ g2, c.isDigit = true)
    (hd3 : ∀ c ∈ g3, c.isDigit = true) (hd4 : ∀ c ∈ g4, c.isDigit = true)
    (hd5 : ∀ c ∈ g5, c.isDigit = true) :
    ',' ∉ rangeExpr g1 g2 g3 g4 g5 [':'] := by
  intro hmem
  rw [rangeExpr] at hmem
  rcases List.mem_append.mp hmem with h | h
  · exact absurd (hd1 _ h) (by decide)
  rcases List.mem_cons.mp h with h | h
  · exact absurd h (by decide)
  rcases List.mem_append.mp h with h | h
  · exact absurd (hd2 _ h) (by decide)
  rcases List.mem_cons.mp h with h | h
  · exact absurd h (by decide)
  rcases List.mem_append.mp h with h | h
  · exact absurd (hd3 _ h) (by decide)
  rcases List.mem_cons.mp h with h | h
  · exact absurd h (by decide)
  rcases List.mem_append.mp h with h | h
  · exact absurd (hd4 _ h) (by decide)
  rcases List.mem_cons.mp h with h | h
  · exact absurd h (by decide)
  rcases List.mem_append.mp h with h | h
  · exact absurd (hd5 _ h) (by decide)
  rcases List.mem_cons.mp h with h | h
  · exact absurd h (by decide)
  · exact absurd h (List.not_mem_nil _)

/-- The matcher accepts a shorthand-range expression with a trailing lone
colon, capturing no port group. -/
theorem captures_range_colon (g1 g2 g3 g4 g5 : List Char)
    (h1 : g1 ≠ []) (hd1 : ∀ c ∈ g1, c.isDigit = true)
    (h2 : g2 ≠ []) (hd2 : ∀ c ∈ g2, c.isDigit = true)
    (h3 : g3 ≠ []) (hd3 : ∀ c ∈ g3, c.isDigit = true)
    (h4 : g4 ≠ []) (hd4 : ∀ c ∈ g4, c.isDigit = true)
    (h5 : g5 ≠ []) (hd5 : ∀ c ∈ g5, c.isDigit = true) :
    ipv4RangeCaptures (rangeExpr g1 g2 g3 g4 g5 [':']) =
      some ⟨g1, g2, g3, g4, g5, none⟩ := by
  have e1 := readGroup_append g1
    ('.' :: (g2 ++ '.' :: (g3 ++ '.' :: (g4 ++ '-' :: (g5 ++ [':'])))))
    h1 hd1 (head_cons_not_digit (by decide) _)
  have e2 := readGroup_append g2 ('.' :: (g3 ++ '.' :: (g4 ++ '-' :: (g5 ++ [':']))))
    h2 hd2 (head_cons_not_digit (by decide) _)
  have e3 := readGroup_append g3 ('.' :: (g4 ++ '-' :: (g5 ++ [':'])))
    h3 hd3 (head_cons_not_digit (by decide) _)
  have e4 := readGroup_append g4 ('-' :: (g5 ++ [':']))
    h4 hd4 (head_cons_not_digit (by decide) _)
  have e5 := readGroup_append g5 [':'] h5 hd5 (head_cons_not_digit (by decide) _)
  simp [rangeExpr, ipv4RangeCaptures, e1, e2, e3, e4, e5, expectChar, rangeTail, takeDigits]

/-- C9: a comma-free expression `a.b.c.start-stop:` ending in a lone
colon (no port digits) still matches the shorthand-range pattern — the
colon and the port digits are independently optional — so with groups
fitting in `u8` and `start ≤ stop` the parser succeeds and emits the
targets with no port suffix at all. -/
theorem trailing_colon_matches (cap : String → Option (List String))
    (g1 g2 g3 g4 g5 : List Char)
    (h1 : g1 ≠ []) (hd1 : ∀ c ∈ g1, c.isDigit = true)
    (h2 : g2 ≠ []) (hd2 : ∀ c ∈ g2, c.isDigit = true)
    (h3 : g3 ≠ []) (hd3 : ∀ c ∈ g3, c.isDigit = true)
    (h4 : g4 ≠ []) (hd4 : ∀ c ∈ g4, c.isDigit = true)
    (h5 : g5 ≠ []) (hd5 : ∀ c ∈ g5, c.isDigit = true)
    (a b c start stop : Nat)
    (ha : parseU8 g1 = some a) (hb : parseU8 g2 = some b)
    (hc : parseU8 g3 = some c) (hs : parseU8 g4 = some start)
    (ht : parseU8 g5 = some stop) (hle : start ≤ stop) :
    ipv4RangeCaptures (rangeExpr g1 g2 g3 g4 g5 [':']) =
      some ⟨g1, g2, g3, g4, g5, none⟩ ∧
    parse_multiple_targets cap (String.mk (rangeExpr g1 g2 g3 g4 g5 [':'])) =
      .ok ((List.range' start (stop + 1 - start)).map
        (fun d => formatTarget a b c d "")) := by
  have hcap := captures_range_colon g1 g2 g3 g4 g5 h1 hd1 h2 hd2 h3 hd3 h4 hd4 h5 hd5
  refine ⟨hcap, ?_⟩
  have hres := parse_range_ok_eval cap (String.mk (rangeExpr g1 g2 g3 g4 g5 [':']))
    ⟨g1, g2, g3, g4, g5, none⟩ a b c start stop
    (comma_not_mem_range_colon g1 g2 g3 g4 g5 hd1 hd2 hd3 hd4 hd5)
    hcap ha hb hc hs ht hle
  simpa [portPart] using hres

/-- C9 witness: the trailing-colon theorem at `1.2.3.4-7:`. -/
theorem trailing_colon_matches_witness :
    ipv4RangeCaptures (rangeExpr ['1'] ['2'] ['3'] ['4'] ['7'] [':']) =
      some ⟨['1'], ['2'], ['3'], ['4'], ['7'], none⟩ ∧
    parse_multiple_targets cidrModel
        (String.mk (rangeExpr ['1'] ['2'] ['3'] ['4'] ['7'] [':'])) =
      .ok ((List.range' 4 (7 + 1 - 4)).map (fun d => formatTarget 1 2 3 d "")) :=
  trailing_colon_matches cidrModel ['1'] ['2'] ['3'] ['4'] ['7']
    (by decide) (by decide) (by decide) (by decide) (by decide) (by decide)
    (by decide) (by decide) (by decide) (by decide) 1 2 3 4 7
    (by decide) (by decide) (by decide) (by decide) (by decide) (by decide)

/-- C10: shorthand-range targets are rebuilt from the re-formatted
numeric values of the captures, not copied from the input text: on
`001.002.003.004-005` the parser succeeds with canonical decimal
addresses, and the emitted address `1.2.3.4` is not a substring of the
input expression. -/
theorem leading_zeros_canonical (cap : String → Option (List String)) :
    parse_multiple_targets cap "001.002.003.004-005" =
      .ok [formatTarget 1 2 3 4 "", formatTarget 1 2 3 5 ""] ∧
    formatTarget 1 2 3 4 "" = "1.2.3.4" ∧
    ¬ List.IsInfix ("1.2.3.4" : String).data ("001.002.003.004-005" : String).data :=
  ⟨rfl, rfl, by decide⟩

end Legba
